import Mathlib

/-!
A shallow embedding of `src/cron.py`: a five-field cron expression parser.
Python strings are modelled as `List Char` (ASCII model: `str.isdigit` and
`int()` are modelled for ASCII digits and ASCII whitespace, which covers
every string the program's grammar accepts).  Python functions that can
raise `ValueError` return `Except PyErr _`; each `raise` site (and each
failure mode of a built-in such as `int()` or `range()`) gets its own
`PyErr` constructor so that the error taxonomy can be reasoned about.
-/

namespace Cron

/-- Decidable equality for `Except`, needed to evaluate concrete runs. -/
instance {ε α : Type} [DecidableEq ε] [DecidableEq α] : DecidableEq (Except ε α) := fun a b =>
  match a, b with
  | .ok x, .ok y =>
    if h : x = y then .isTrue (by rw [h]) else .isFalse (by intro hc; cases hc; exact h rfl)
  | .error x, .error y =>
    if h : x = y then .isTrue (by rw [h]) else .isFalse (by intro hc; cases hc; exact h rfl)
  | .ok _, .error _ => .isFalse (by intro hc; cases hc)
  | .error _, .ok _ => .isFalse (by intro hc; cases hc)

/-- `type CRON_OPERATIONS = Literal["all_items", "wild_card_with_step_value",
"range", "list", "single_value"]` (cron.py lines 3-5). -/
inductive CronOp : Type
  | all_items
  | wild_card_with_step_value
  | range
  | list
  | single_value
deriving DecidableEq

/-- `type CRON_TIME_PART = Literal["minute", "hour", "day_of_month", "month",
"day_of_week"]` (cron.py line 7). -/
inductive CronPart : Type
  | minute
  | hour
  | day_of_month
  | month
  | day_of_week
deriving DecidableEq

/-- The `MIN_VALUE` table (cron.py lines 9-15). -/
def MIN_VALUE : CronPart → Int
  | .minute => 0
  | .hour => 0
  | .day_of_month => 1
  | .month => 1
  | .day_of_week => 1

/-- The `MAX_VALUE` table (cron.py lines 17-23). -/
def MAX_VALUE : CronPart → Int
  | .minute => 59
  | .hour => 23
  | .day_of_month => 31
  | .month => 12
  | .day_of_week => 7

/-- The `CRON_PART` position table (cron.py lines 25-31), as the list of its
values at keys 0,1,2,3,4 (the only keys, and the only ones ever looked up). -/
def CRON_PART : List CronPart :=
  [.minute, .hour, .day_of_month, .month, .day_of_week]

/-- One constructor per distinct `ValueError` raise site of cron.py (plus the
failure modes of the Python built-ins `int()` and `range()` and of tuple
unpacking, which also surface as `ValueError`). -/
inductive PyErr : Type
  | wrongFieldCount
  | invalidOperation
  | assertValueRequired
  | intParseError
  | stepOutOfRange
  | rangeSignError
  | rangeUnpackError
  | orderViolation
  | rangeLowerOutOfRange
  | rangeUpperOutOfRange
  | listOutOfRange
  | singleOutOfRange
  | zeroStepRange
deriving DecidableEq

/-! ### Python string and numeric primitives -/

/-- ASCII decimal digit (model of the character class Python's `str.isdigit`
and `int()` accept, restricted to ASCII). -/
def charIsDigit (c : Char) : Bool :=
  c = '0' || c = '1' || c = '2' || c = '3' || c = '4' ||
  c = '5' || c = '6' || c = '7' || c = '8' || c = '9'

/-- ASCII whitespace, as stripped by Python's `int()` and split on by
`str.split()`. -/
def isPyWs (c : Char) : Bool :=
  c = ' ' || c = '\t' || c = '\n' || c = '\x0d' || c = '\x0b' || c = '\x0c'

/-- Python `s.startswith(p)` for `List Char`. -/
def pyStartsWith : List Char → List Char → Bool
  | [], _ => true
  | _ :: _, [] => false
  | p :: ps, c :: cs => p = c && pyStartsWith ps cs

/-- Python `s.endswith(p)` for `List Char`. -/
def pyEndsWith (p s : List Char) : Bool :=
  pyStartsWith p.reverse s.reverse

/-- Python `c in s` for a single character `c`. -/
def pyContainsChar (c : Char) (s : List Char) : Bool :=
  s.any (· = c)

/-- Python `s.isdigit()` (ASCII model): non-empty and all digits. -/
def pyIsDigit (s : List Char) : Bool :=
  !s.isEmpty && s.all charIsDigit

/-- Worker for `pySplitOn`: accumulates the current piece in reverse. -/
def splitOnAux (sep : Char) : List Char → List Char → List (List Char)
  | [], acc => [acc.reverse]
  | c :: cs, acc =>
    if c = sep then acc.reverse :: splitOnAux sep cs []
    else splitOnAux sep cs (c :: acc)

/-- Python `s.split(sep)` for a one-character separator: splits at every
occurrence, keeping empty pieces; `"".split(sep) == [""]`. -/
def pySplitOn (sep : Char) (s : List Char) : List (List Char) :=
  splitOnAux sep s []

/-- Worker for `pySplitWs`: accumulates the current word in reverse. -/
def splitWsAux : List Char → List Char → List (List Char)
  | [], acc => if acc.isEmpty then [] else [acc.reverse]
  | c :: cs, acc =>
    if isPyWs c then
      if acc.isEmpty then splitWsAux cs [] else acc.reverse :: splitWsAux cs []
    else splitWsAux cs (c :: acc)

/-- Python `s.split()` (no argument): maximal runs of non-whitespace, no
empty pieces. -/
def pySplitWs (s : List Char) : List (List Char) :=
  splitWsAux s []

/-- Strip ASCII whitespace from both ends (Python `int()` does this before
parsing). -/
def stripWs (s : List Char) : List Char :=
  ((s.dropWhile isPyWs).reverse.dropWhile isPyWs).reverse

/-- After the first digit, Python `int()` accepts digits with single
underscores strictly between digits. -/
def udRest : List Char → Bool
  | [] => true
  | '_' :: [] => false
  | '_' :: d :: rest => charIsDigit d && udRest rest
  | d :: rest => charIsDigit d && udRest rest

/-- A valid unsigned digit group for Python `int()`: a digit, then
`udRest`. -/
def udOk : List Char → Bool
  | [] => false
  | c :: rest => charIsDigit c && udRest rest

/-- Decimal value of a digit group, ignoring underscores. -/
def digitsVal (l : List Char) : Nat :=
  (l.filter (fun c => c ≠ '_')).foldl (fun a c => a * 10 + (c.toNat - 48)) 0

/-- Python `int(s)` (ASCII model): strip whitespace, optional sign, digit
group with optional interior underscores; `none` models the `ValueError`. -/
def pyInt (s : List Char) : Option Int :=
  match stripWs s with
  | '+' :: rest => if udOk rest then some (digitsVal rest) else none
  | '-' :: rest => if udOk rest then some (-(digitsVal rest : Int)) else none
  | t => if udOk t then some (digitsVal t) else none

/-- Python `list(range(start, stop, step))`: `none` models the `ValueError`
raised on a zero step.  For a positive step the element count is
`max 0 (ceil((stop-start)/step))`, computed here as a `Nat` division. -/
def pyRange (start stop step : Int) : Option (List Int) :=
  if step = 0 then none
  else if 0 < step then
    some (((List.range ((stop - start + step - 1).toNat / step.toNat))).map
      (fun i : Nat => start + step * (i : Int)))
  else
    some (((List.range ((start - stop + (-step) - 1).toNat / (-step).toNat))).map
      (fun i : Nat => start + step * (i : Int)))

/-- Python `map(int, toks)` forced left to right: `none` as soon as one
token fails to parse. -/
def listParseAll : List (List Char) → Option (List Int)
  | [] => some []
  | t :: ts =>
    match pyInt t, listParseAll ts with
    | some n, some ns => some (n :: ns)
    | _, _ => none

/-- Joining pieces with a one-character separator (used to build the
comma-separated and hyphen-separated payloads the claims speak about). -/
def joinSep (sep : Char) : List (List Char) → List Char
  | [] => []
  | [t] => t
  | t :: ts => t ++ sep :: joinSep sep ts

/-- The closed integer interval `[lo, hi]` as a list, ascending, step 1. -/
def intervalList (lo hi : Int) : List Int :=
  (List.range (hi + 1 - lo).toNat).map (fun i : Nat => lo + (i : Int))

/-! ### The four functions of cron.py -/

/-- `detect_operation` (cron.py lines 34-56): first-match-wins priority over
the five productions; the final `else` raises `ValueError` (here
`invalidOperation`). -/
def detect_operation (field : List Char) : Except PyErr CronOp :=
  if pyStartsWith ['*'] field && !pyStartsWith ['*', '/'] field then .ok .all_items
  else if pyStartsWith ['*', '/'] field then .ok .wild_card_with_step_value
  else if pyContainsChar ',' field then .ok .list
  else if pyContainsChar '-' field then .ok .range
  else if pyIsDigit field then .ok .single_value
  else .error .invalidOperation

/-- `validate_field` (cron.py lines 59-134).  Each branch mirrors the Python
one, with the Python evaluation order: for `range`, the sign check, then the
split-and-parse (a split that does not yield exactly two pieces fails the
tuple unpacking; a piece `int()` cannot parse fails inside it — both are
`ValueError`s, modelled as `rangeUnpackError` / `intParseError`), then the
order check, then the lower and the upper bounds checks.  A `None` payload
for an operation that needs one trips the Python `assert`. -/
def validate_field (cron_part_type : CronPart) (operation : CronOp)
    (value : Option (List Char)) : Except PyErr Unit :=
  match operation with
  | .wild_card_with_step_value =>
    match value with
    | none => .error .assertValueRequired
    | some v =>
      match pyInt v with
      | none => .error .intParseError
      | some n =>
        if MIN_VALUE cron_part_type ≤ n ∧ n ≤ MAX_VALUE cron_part_type then .ok ()
        else .error .stepOutOfRange
  | .range =>
    match value with
    | none => .error .assertValueRequired
    | some v =>
      if pyStartsWith ['-'] v || pyEndsWith ['-'] v then .error .rangeSignError
      else
        match pySplitOn '-' v with
        | [a, b] =>
          match pyInt a, pyInt b with
          | some lower_bound, some upper_bound =>
            if lower_bound > upper_bound then .error .orderViolation
            else if ¬(MIN_VALUE cron_part_type ≤ lower_bound ∧
                lower_bound ≤ MAX_VALUE cron_part_type) then .error .rangeLowerOutOfRange
            else if ¬(MIN_VALUE cron_part_type ≤ upper_bound ∧
                upper_bound ≤ MAX_VALUE cron_part_type) then .error .rangeUpperOutOfRange
            else .ok ()
          | _, _ => .error .intParseError
        | _ => .error .rangeUnpackError
  | .list =>
    match value with
    | none => .error .assertValueRequired
    | some v =>
      match listParseAll (pySplitOn ',' v) with
      | none => .error .intParseError
      | some ns =>
        if ns.any (fun n => ¬(MIN_VALUE cron_part_type ≤ n ∧
            n ≤ MAX_VALUE cron_part_type)) then .error .listOutOfRange
        else .ok ()
  | .single_value =>
    match value with
    | none => .error .assertValueRequired
    | some v =>
      match pyInt v with
      | none => .error .intParseError
      | some n =>
        if MIN_VALUE cron_part_type ≤ n ∧ n ≤ MAX_VALUE cron_part_type then .ok ()
        else .error .singleOutOfRange
  | .all_items => .ok ()

/-- `generate_values` (cron.py lines 137-167).  `range(a, b)` is
`pyRange a b 1`; `range(a, b, int(value))` can fail when `int(value)` is 0
(`zeroStepRange`). -/
def generate_values (cron_part_type : CronPart) (operation : CronOp)
    (value : Option (List Char)) : Except PyErr (List Int) :=
  match operation with
  | .all_items =>
    match pyRange (MIN_VALUE cron_part_type) (MAX_VALUE cron_part_type + 1) 1 with
    | some vs => .ok vs
    | none => .error .zeroStepRange
  | .wild_card_with_step_value =>
    match value with
    | none => .error .assertValueRequired
    | some v =>
      match pyInt v with
      | none => .error .intParseError
      | some n =>
        match pyRange (MIN_VALUE cron_part_type) (MAX_VALUE cron_part_type + 1) n with
        | some vs => .ok vs
        | none => .error .zeroStepRange
  | .range =>
    match value with
    | none => .error .assertValueRequired
    | some v =>
      match pySplitOn '-' v with
      | [a, b] =>
        match pyInt a, pyInt b with
        | some lower_bound, some upper_bound =>
          match pyRange lower_bound (upper_bound + 1) 1 with
          | some vs => .ok vs
          | none => .error .zeroStepRange
        | _, _ => .error .intParseError
      | _ => .error .rangeUnpackError
  | .list =>
    match value with
    | none => .error .assertValueRequired
    | some v =>
      match listParseAll (pySplitOn ',' v) with
      | none => .error .intParseError
      | some ns => .ok ns
  | .single_value =>
    match value with
    | none => .error .assertValueRequired
    | some v =>
      match pyInt v with
      | none => .error .intParseError
      | some n => .ok [n]

/-! ### The orchestrator -/

/-- Python `str(i)` for an integer. -/
def pyStr (i : Int) : List Char :=
  if i < 0 then '-' :: Nat.toDigits 10 (-i).toNat else Nat.toDigits 10 i.toNat

/-- Python `f"{name:<14}"`: left-justify with trailing spaces to width 14. -/
def ljust14 (s : List Char) : List Char :=
  s ++ List.replicate (14 - s.length) ' '

/-- The Python string a `CRON_TIME_PART` literal denotes. -/
def partName : CronPart → List Char
  | .minute => String.toList "minute"
  | .hour => String.toList "hour"
  | .day_of_month => String.toList "day_of_month"
  | .month => String.toList "month"
  | .day_of_week => String.toList "day_of_week"

/-- One report line: `f"{part:<14}{' '.join(map(str, val))}"`
(cron.py line 196). -/
def renderLine (part : CronPart) (val : List Int) : List Char :=
  ljust14 (partName part) ++ List.intercalate [' '] (val.map pyStr)

/-- The body of the orchestrator's loop for one position (cron.py lines
180-196): classify, then (except for `all_items`) validate, then expand,
then render. -/
def processField (part : CronPart) (cron_field : List Char) : Except PyErr (List Char) :=
  match detect_operation cron_field with
  | .error e => .error e
  | .ok operation =>
    match operation with
    | .all_items =>
      match generate_values part .all_items none with
      | .error e => .error e
      | .ok val => .ok (renderLine part val)
    | .wild_card_with_step_value =>
      match validate_field part .wild_card_with_step_value (some (cron_field.drop 2)) with
      | .error e => .error e
      | .ok _ =>
        match generate_values part .wild_card_with_step_value (some (cron_field.drop 2)) with
        | .error e => .error e
        | .ok val => .ok (renderLine part val)
    | op =>
      match validate_field part op (some cron_field) with
      | .error e => .error e
      | .ok _ =>
        match generate_values part op (some cron_field) with
        | .error e => .error e
        | .ok val => .ok (renderLine part val)

/-- The orchestrator's loop over positions 0..4, fail-fast. -/
def processFields : List (CronPart × List Char) → Except PyErr (List (List Char))
  | [] => .ok []
  | (p, f) :: rest =>
    match processField p f with
    | .error e => .error e
    | .ok line =>
      match processFields rest with
      | .error e => .error e
      | .ok lines => .ok (line :: lines)

/-- `process_cron_expression` (cron.py lines 170-198): split on whitespace,
require exactly five fields (`wrongFieldCount` models the `ValueError`
"Cron expression must contain 5 fields"), process each field with the
`CRON_PART` kind of its position, join the lines with newlines. -/
def process_cron_expression (expression : List Char) : Except PyErr (List Char) :=
  let split_cron := pySplitWs expression
  if split_cron.length = 5 then
    match processFields (CRON_PART.zip split_cron) with
    | .error e => .error e
    | .ok result => .ok (List.intercalate ['\n'] result)
  else .error .wrongFieldCount

/-! ### Helper lemmas on the primitives -/

/-- A character satisfying `charIsDigit` is one of the ten ASCII digits. -/
theorem charIsDigit_cases {c : Char} (h : charIsDigit c = true) :
    c = '0' ∨ c = '1' ∨ c = '2' ∨ c = '3' ∨ c = '4' ∨
    c = '5' ∨ c = '6' ∨ c = '7' ∨ c = '8' ∨ c = '9' := by
  simp only [charIsDigit, Bool.or_eq_true, decide_eq_true_eq] at h
  tauto

theorem digit_ne_minus {c : Char} (h : charIsDigit c = true) : c ≠ '-' := by
  rcases charIsDigit_cases h with h | h | h | h | h | h | h | h | h | h <;> simp [h]

theorem digit_ne_comma {c : Char} (h : charIsDigit c = true) : c ≠ ',' := by
  rcases charIsDigit_cases h with h | h | h | h | h | h | h | h | h | h <;> simp [h]

theorem digit_not_ws {c : Char} (h : charIsDigit c = true) : isPyWs c = false := by
  rcases charIsDigit_cases h with h | h | h | h | h | h | h | h | h | h <;> simp [h, isPyWs]

theorem dropWhile_ws_of_digits {l : List Char} (h : l.all charIsDigit = true) :
    l.dropWhile isPyWs = l := by
  cases l with
  | nil => rfl
  | cons a as =>
    have ha : charIsDigit a = true := by simp [List.all_cons] at h; exact h.1
    simp [List.dropWhile_cons, digit_not_ws ha]

theorem stripWs_of_digits {l : List Char} (h : l.all charIsDigit = true) :
    stripWs l = l := by
  have h2 : l.reverse.all charIsDigit = true := by simpa using h
  simp [stripWs, dropWhile_ws_of_digits h, dropWhile_ws_of_digits h2]

theorem udRest_of_digits {l : List Char} (h : l.all charIsDigit = true) :
    udRest l = true := by
  induction l with
  | nil => rfl
  | cons c rest ih =>
    simp only [List.all_cons, Bool.and_eq_true] at h
    rcases charIsDigit_cases h.1 with hc | hc | hc | hc | hc | hc | hc | hc | hc | hc <;>
      subst hc <;> simp [udRest, h.1, ih h.2]

theorem udOk_of_digits {l : List Char} (hne : l ≠ []) (h : l.all charIsDigit = true) :
    udOk l = true := by
  cases l with
  | nil => exact absurd rfl hne
  | cons c rest =>
    simp only [List.all_cons, Bool.and_eq_true] at h
    simp [udOk, h.1, udRest_of_digits h.2]

/-- On a pure digit string, `pyInt` succeeds with the string's decimal
value. -/
theorem pyInt_digits {l : List Char} (hne : l ≠ []) (h : l.all charIsDigit = true) :
    pyInt l = some (digitsVal l) := by
  cases l with
  | nil => exact absurd rfl hne
  | cons c rest =>
    have hc : charIsDigit c = true := by simp [List.all_cons] at h; exact h.1
    have hok : udOk (c :: rest) = true := udOk_of_digits hne h
    have hs : stripWs (c :: rest) = c :: rest := stripWs_of_digits h
    rcases charIsDigit_cases hc with h1 | h1 | h1 | h1 | h1 | h1 | h1 | h1 | h1 | h1 <;>
      subst h1 <;> simp [pyInt, hs, hok]

theorem pyStartsWith_star_of_star_slash {s : List Char}
    (h : pyStartsWith ['*', '/'] s = true) : pyStartsWith ['*'] s = true := by
  cases s with
  | nil => simp [pyStartsWith] at h
  | cons c cs =>
    simp only [pyStartsWith, Bool.and_eq_true] at h
    simp [pyStartsWith, h.1]

/-- A non-empty digit string does not start with a minus sign. -/
theorem not_startsWith_minus_of_digits {l : List Char} (hne : l ≠ [])
    (h : l.all charIsDigit = true) : pyStartsWith ['-'] l = false := by
  cases l with
  | nil => exact absurd rfl hne
  | cons c cs =>
    have hc : charIsDigit c = true := by simp [List.all_cons] at h; exact h.1
    simp [pyStartsWith, (digit_ne_minus hc).symm]

/-- A list beginning with a digit string never starts with a minus sign. -/
theorem pyStartsWith_minus_append {l : List Char} (m : List Char) (hne : l ≠ [])
    (h : l.all charIsDigit = true) : pyStartsWith ['-'] (l ++ m) = false := by
  cases l with
  | nil => exact absurd rfl hne
  | cons c cs =>
    have hc : charIsDigit c = true := by simp [List.all_cons] at h; exact h.1
    simp [pyStartsWith, (digit_ne_minus hc).symm]

/-- `splitOnAux` on a piece free of the separator yields a single piece. -/
theorem splitOnAux_no_sep {sep : Char} {l : List Char} (acc : List Char)
    (h : ∀ c ∈ l, c ≠ sep) : splitOnAux sep l acc = [acc.reverse ++ l] := by
  induction l generalizing acc with
  | nil => simp [splitOnAux]
  | cons c cs ih =>
    have hc : c ≠ sep := h c (by simp)
    rw [splitOnAux, if_neg hc, ih (c :: acc) (fun d hd => h d (by simp [hd]))]
    simp

/-- `splitOnAux` across the first separator occurrence. -/
theorem splitOnAux_mid {sep : Char} {a : List Char} (b acc : List Char)
    (h : ∀ c ∈ a, c ≠ sep) :
    splitOnAux sep (a ++ sep :: b) acc = (acc.reverse ++ a) :: splitOnAux sep b [] := by
  induction a generalizing acc with
  | nil => simp [splitOnAux]
  | cons c cs ih =>
    have hc : c ≠ sep := h c (by simp)
    rw [List.cons_append, splitOnAux, if_neg hc,
      ih (c :: acc) (fun d hd => h d (by simp [hd]))]
    simp

/-- `"A-B".split("-") == ["A", "B"]` when neither piece contains the
separator. -/
theorem pySplitOn_pair {sep : Char} {a b : List Char}
    (ha : ∀ c ∈ a, c ≠ sep) (hb : ∀ c ∈ b, c ≠ sep) :
    pySplitOn sep (a ++ sep :: b) = [a, b] := by
  rw [pySplitOn, splitOnAux_mid b [] ha, splitOnAux_no_sep [] hb]
  simp

theorem joinSep_cons_cons (sep : Char) (t u : List Char) (us : List (List Char)) :
    joinSep sep (t :: u :: us) = t ++ sep :: joinSep sep (u :: us) := rfl

/-- Splitting undoes joining when no piece contains the separator. -/
theorem pySplitOn_joinSep {sep : Char} {toks : List (List Char)} (hne : toks ≠ [])
    (h : ∀ t ∈ toks, ∀ c ∈ t, c ≠ sep) :
    pySplitOn sep (joinSep sep toks) = toks := by
  induction toks with
  | nil => exact absurd rfl hne
  | cons t ts ih =>
    cases ts with
    | nil =>
      rw [joinSep, pySplitOn, splitOnAux_no_sep [] (h t (by simp))]
      simp
    | cons u us =>
      rw [joinSep_cons_cons, pySplitOn, splitOnAux_mid _ [] (h t (by simp))]
      have := ih (List.cons_ne_nil u us) (fun v hv c hc => h v (by simp [hv]) c hc)
      rw [pySplitOn] at this
      simp [this]

/-- `listParseAll` on pure digit tokens yields their decimal values. -/
theorem listParseAll_digits {toks : List (List Char)}
    (h : ∀ t ∈ toks, t ≠ [] ∧ t.all charIsDigit = true) :
    listParseAll toks = some (toks.map (fun t => (digitsVal t : Int))) := by
  induction toks with
  | nil => rfl
  | cons t ts ih =>
    have ht := h t (by simp)
    rw [listParseAll, pyInt_digits ht.1 ht.2, ih (fun u hu => h u (by simp [hu]))]
    simp

theorem MIN_VALUE_nonneg (p : CronPart) : 0 ≤ MIN_VALUE p := by
  cases p <;> norm_num [MIN_VALUE]

theorem MIN_VALUE_le_MAX_VALUE (p : CronPart) : MIN_VALUE p ≤ MAX_VALUE p := by
  cases p <;> norm_num [MIN_VALUE, MAX_VALUE]

/-- Python `range(lo, hi + 1)` enumerates the closed interval `[lo, hi]`. -/
theorem pyRange_step_one (lo hi : Int) : pyRange lo (hi + 1) 1 = some (intervalList lo hi) := by
  have h1 : hi + 1 - lo + 1 - 1 = hi + 1 - lo := by ring
  simp [pyRange, intervalList, h1]

/-- Every element of a positive-step Python range lies in `[start, stop)`. -/
theorem pyRange_pos_mem {start stop step : Int} {vs : List Int} (hstep : 0 < step)
    (h : pyRange start stop step = some vs) : ∀ x ∈ vs, start ≤ x ∧ x < stop := by
  intro x hx
  rw [pyRange, if_neg (by omega : ¬step = 0), if_pos hstep] at h
  have hvs := (Option.some.injEq _ _).mp h.symm
  subst hvs
  simp only [List.mem_map, List.mem_range] at hx
  obtain ⟨i, hi, rfl⟩ := hx
  have hN : 0 < step.toNat := by omega
  have hi0 : (0:Int) ≤ (i : Int) := Int.natCast_nonneg i
  constructor
  · have hmul : (0:Int) ≤ step * (i : Int) := mul_nonneg hstep.le hi0
    linarith
  · have h1 : (i + 1) * step.toNat ≤ (stop - start + step - 1).toNat :=
      (Nat.le_div_iff_mul_le hN).mp (Nat.succ_le_of_lt hi)
    rcases le_or_lt 0 (stop - start + step - 1) with hca | hca
    · have hA : ((stop - start + step - 1).toNat : Int) = stop - start + step - 1 :=
        Int.toNat_of_nonneg hca
      have h2 : ((i : Int) + 1) * ((step.toNat : Int)) ≤
          ((stop - start + step - 1).toNat : Int) := by
        exact_mod_cast h1
      rw [hA, Int.toNat_of_nonneg hstep.le] at h2
      nlinarith
    · exfalso
      have hA : (stop - start + step - 1).toNat = 0 := Int.toNat_of_nonpos hca.le
      rw [hA] at h1
      have hpos : 0 < (i + 1) * step.toNat := Nat.mul_pos (Nat.succ_pos i) hN
      omega

/-! ### `wrongFieldCount` is raised by the orchestrator's length check only -/

theorem validate_field_ne_wfc (p : CronPart) (op : CronOp) (v : Option (List Char)) :
    validate_field p op v ≠ .error .wrongFieldCount := by
  cases op <;> cases v <;> simp only [validate_field] <;> intro h <;>
    (repeat' split at h) <;> simp_all

theorem generate_values_ne_wfc (p : CronPart) (op : CronOp) (v : Option (List Char)) :
    generate_values p op v ≠ .error .wrongFieldCount := by
  cases op <;> cases v <;> simp only [generate_values] <;> intro h <;>
    (repeat' split at h) <;> simp_all

theorem detect_operation_ne_wfc (f : List Char) :
    detect_operation f ≠ .error .wrongFieldCount := by
  simp only [detect_operation]
  split_ifs <;> simp

theorem processField_ne_wfc (p : CronPart) (f : List Char) :
    processField p f ≠ .error .wrongFieldCount := by
  intro h
  simp only [processField] at h
  repeat' split at h
  all_goals first
    | (cases h;
       solve_by_elim [detect_operation_ne_wfc, validate_field_ne_wfc, generate_values_ne_wfc])
    | simp at h

theorem processFields_ne_wfc (l : List (CronPart × List Char)) :
    processFields l ≠ .error .wrongFieldCount := by
  induction l with
  | nil => simp [processFields]
  | cons pf rest ih =>
    intro h
    obtain ⟨p, f⟩ := pf
    simp only [processFields] at h
    repeat' split at h
    all_goals first
      | (cases h; solve_by_elim [processField_ne_wfc])
      | simp at h

/-! ### The claims -/

/-- C1: on the expression `*/15 0 1,15 * 1-5`, `process_cron_expression`
returns exactly the five-line report, each line the field-kind name padded
with trailing spaces to width 14 followed by the space-joined decimal
values, lines joined with newlines and no trailing newline. -/
theorem cron_c1_end_to_end_report :
    process_cron_expression (String.toList "*/15 0 1,15 * 1-5") =
      .ok (String.toList
        "minute        0 15 30 45\nhour          0\nday_of_month  1 15\nmonth         1 2 3 4 5 6 7 8 9 10 11 12\nday_of_week   1 2 3 4 5") := by
  decide

/-- C2: the claim that `generate_values` cannot fail on a payload
`validate_field` accepted is violated by the code: for the hour field the
step payload `"0"` passes validation (the bounds check accepts
`MIN_VALUE ≤ 0`, although the raise message names `MIN_VALUE + 1` as the
least legal value) and expansion then raises, because Python
`range(0, 24, 0)` is a `ValueError`. -/
theorem cron_c2_validated_step_zero_expansion_fails :
    validate_field .hour .wild_card_with_step_value (some ['0']) = .ok () ∧
    generate_values .hour .wild_card_with_step_value (some ['0']) = .error .zeroStepRange := by
  decide

/-- C3 counterexample: `detect_operation` is not total on non-empty field
texts: on `"xyz"` it returns no operation but fails (the final `else`
raises `ValueError`). -/
theorem cron_c3_not_total_counterexample :
    (String.toList "xyz") ≠ [] ∧
    detect_operation (String.toList "xyz") = .error .invalidOperation ∧
    ∀ op : CronOp, detect_operation (String.toList "xyz") ≠ .ok op := by
  refine ⟨by decide, by decide, ?_⟩
  intro op h
  have hd : detect_operation (String.toList "xyz") = .error .invalidOperation := by decide
  rw [hd] at h
  cases h

/-- C3 (amended): `detect_operation` classifies by first-match-wins
priority, returning an operation or failing with `invalidOperation`; in
particular every field text containing both a comma and a hyphen that does
not begin with `*` is classified as the list operation, never range. -/
theorem cron_c3_comma_hyphen_classifies_list (s : List Char)
    (hc : pyContainsChar ',' s = true) (hh : pyContainsChar '-' s = true)
    (hs : pyStartsWith ['*'] s = false) :
    detect_operation s = .ok .list := by
  have h2 : pyStartsWith ['*', '/'] s = false := by
    cases hss : pyStartsWith ['*', '/'] s
    · rfl
    · rw [pyStartsWith_star_of_star_slash hss] at hs
      exact absurd hs (by simp)
  simp [detect_operation, hs, h2, hc]

/-- C3 witness: `"1,2-3"` contains both a comma and a hyphen, does not
begin with `*`, and is classified as list. -/
theorem cron_c3_witness : detect_operation (String.toList "1,2-3") = .ok .list :=
  cron_c3_comma_hyphen_classifies_list (String.toList "1,2-3")
    (by decide) (by decide) (by decide)

/-- C4: for every field kind, every operation other than `all_items` and
every payload `validate_field` accepts, every integer in a list
`generate_values` returns lies within the field kind's `[min, max]`
bounds. -/
theorem cron_c4_expanded_values_in_bounds (part : CronPart) (op : CronOp)
    (payload : List Char) (vs : List Int) (hop : op ≠ .all_items)
    (hval : validate_field part op (some payload) = .ok ())
    (hgen : generate_values part op (some payload) = .ok vs) :
    ∀ x ∈ vs, MIN_VALUE part ≤ x ∧ x ≤ MAX_VALUE part := by
  intro x hx
  cases op with
  | all_items => exact absurd rfl hop
  | wild_card_with_step_value =>
    simp only [validate_field] at hval
    cases hpi : pyInt payload with
    | none => simp only [hpi] at hval; cases hval
    | some n =>
      simp only [hpi] at hval
      split at hval
      · rename_i hb
        simp only [generate_values, hpi] at hgen
        split at hgen
        · rename_i ws hpr
          cases hgen
          have hn0 : n ≠ 0 := by
            intro h0
            rw [h0] at hpr
            simp [pyRange] at hpr
          have hnpos : 0 < n :=
            lt_of_le_of_ne (le_trans (MIN_VALUE_nonneg part) hb.1) (Ne.symm hn0)
          have hm := pyRange_pos_mem hnpos hpr x hx
          exact ⟨hm.1, by omega⟩
        · cases hgen
      · cases hval
  | range =>
    simp only [validate_field] at hval
    split at hval
    · cases hval
    · cases hsp : pySplitOn '-' payload with
      | nil => simp only [hsp] at hval; cases hval
      | cons a t =>
        cases t with
        | nil => simp only [hsp] at hval; cases hval
        | cons b t2 =>
          cases t2 with
          | cons c t3 => simp only [hsp] at hval; cases hval
          | nil =>
            simp only [hsp] at hval
            cases hpa : pyInt a with
            | none => simp only [hpa] at hval; cases hval
            | some lo =>
              cases hpb : pyInt b with
              | none => simp only [hpa, hpb] at hval; cases hval
              | some hi =>
                simp only [hpa, hpb] at hval
                split at hval
                · cases hval
                · split at hval
                  · cases hval
                  · split at hval
                    · cases hval
                    · rename_i hord hlo hhi
                      rw [not_not] at hlo hhi
                      simp only [generate_values, hsp, hpa, hpb] at hgen
                      split at hgen
                      · rename_i ws hpr
                        cases hgen
                        have hm := pyRange_pos_mem (by norm_num) hpr x hx
                        refine ⟨le_trans hlo.1 hm.1, ?_⟩
                        have := hm.2
                        omega
                      · cases hgen
  | list =>
    simp only [validate_field] at hval
    cases hlp : listParseAll (pySplitOn ',' payload) with
    | none => simp only [hlp] at hval; cases hval
    | some ns =>
      simp only [hlp] at hval
      split at hval
      · cases hval
      · rename_i hany
        simp only [generate_values, hlp] at hgen
        cases hgen
        simp only [List.any_eq_true, decide_eq_true_eq, not_exists, not_and] at hany
        have := hany x hx
        constructor <;> by_contra hc <;> tauto
  | single_value =>
    simp only [validate_field] at hval
    cases hpi : pyInt payload with
    | none => simp only [hpi] at hval; cases hval
    | some n =>
      simp only [hpi] at hval
      split at hval
      · rename_i hb
        simp only [generate_values, hpi] at hgen
        cases hgen
        simp only [List.mem_singleton] at hx
        subst hx
        exact hb
      · cases hval

/-- C4 witness: the day-of-week range `"1-5"` validates, expands to
`[1, 2, 3, 4, 5]`, and the member 3 lies within the bounds. -/
theorem cron_c4_witness :
    MIN_VALUE .day_of_week ≤ (3 : Int) ∧ (3 : Int) ≤ MAX_VALUE .day_of_week :=
  cron_c4_expanded_values_in_bounds .day_of_week .range (String.toList "1-5")
    [1, 2, 3, 4, 5] (by decide) (by decide) (by decide) 3 (by decide)

/-- C5: the claim that `generate_values` returns the sampled interval for
every validated step payload is violated by the code at the minute field
with payload `"0"`: validation accepts it (`0 ≤ 0 ≤ 59`, though the raise
message names 1 as the least legal value), yet expansion returns no list
at all — Python `range(0, 60, 0)` raises `ValueError`. -/
theorem cron_c5_validated_step_zero_returns_nothing :
    validate_field .minute .wild_card_with_step_value (some ['0']) = .ok () ∧
    ∀ vs : List Int,
      generate_values .minute .wild_card_with_step_value (some ['0']) ≠ .ok vs := by
  refine ⟨by decide, ?_⟩
  intro vs h
  have hz : generate_values .minute .wild_card_with_step_value (some ['0']) =
      .error .zeroStepRange := by decide
  rw [hz] at h
  cases h

/-- C6: for every field kind and every range payload `A-B` with `A`, `B`
plain (digit-only) integers and `A > B`, `validate_field` fails with the
order violation, whatever the field kind and whether or not the bounds are
also out of range (the order check precedes the bounds checks). -/
theorem cron_c6_reversed_range_order_violation (p : CronPart) (a b : List Char)
    (hane : a ≠ []) (ha : a.all charIsDigit = true)
    (hbne : b ≠ []) (hb : b.all charIsDigit = true)
    (hgt : (digitsVal a : Int) > (digitsVal b : Int)) :
    validate_field p .range (some (a ++ '-' :: b)) = .error .orderViolation := by
  have hstart : pyStartsWith ['-'] (a ++ '-' :: b) = false :=
    pyStartsWith_minus_append ('-' :: b) hane ha
  have hrevb : b.reverse ≠ [] := by simpa using hbne
  have hrevb2 : b.reverse.all charIsDigit = true := by simpa using hb
  have hend : pyEndsWith ['-'] (a ++ '-' :: b) = false := by
    have := pyStartsWith_minus_append ('-' :: a.reverse) hrevb hrevb2
    simpa [pyEndsWith, List.reverse_append] using this
  have hsplit : pySplitOn '-' (a ++ '-' :: b) = [a, b] :=
    pySplitOn_pair
      (fun c hc => digit_ne_minus (by rw [List.all_eq_true] at ha; exact ha c hc))
      (fun c hc => digit_ne_minus (by rw [List.all_eq_true] at hb; exact hb c hc))
  simp only [validate_field, hstart, hend, Bool.or_self, Bool.false_eq_true, if_false,
    hsplit, pyInt_digits hane ha, pyInt_digits hbne hb]
  simp [hgt]

/-- C6 witness: the month range `"20-3"` (both bounds out of the month
range, lower above upper) fails with the order violation. -/
theorem cron_c6_witness :
    validate_field .month .range (some ((String.toList "20") ++ '-' :: (String.toList "3"))) =
      .error .orderViolation :=
  cron_c6_reversed_range_order_violation .month (String.toList "20") (String.toList "3")
    (by decide) (by decide) (by decide) (by decide) (by decide)

/-- C7: for every list payload of comma-separated plain integers,
`generate_values` returns exactly the integers named, in payload order,
neither re-sorted nor deduplicated. -/
theorem cron_c7_list_order_preserved (p : CronPart) (toks : List (List Char))
    (hne : toks ≠ []) (h : ∀ t ∈ toks, t ≠ [] ∧ t.all charIsDigit = true) :
    generate_values p .list (some (joinSep ',' toks)) =
      .ok (toks.map (fun t => (digitsVal t : Int))) := by
  have hsep : ∀ t ∈ toks, ∀ c ∈ t, c ≠ ',' := by
    intro t ht c hc
    have := (h t ht).2
    rw [List.all_eq_true] at this
    exact digit_ne_comma (this c hc)
  simp only [generate_values, pySplitOn_joinSep hne hsep, listParseAll_digits h]

/-- C7 witness: the payload `"5,1,3"` expands to `[5, 1, 3]`, not
`[1, 3, 5]`. -/
theorem cron_c7_witness :
    generate_values .minute .list
        (some (joinSep ',' [String.toList "5", String.toList "1", String.toList "3"])) =
      .ok [5, 1, 3] := by
  have := cron_c7_list_order_preserved .minute
    [String.toList "5", String.toList "1", String.toList "3"] (by decide) (by decide)
  rw [this]
  decide

/-- C8: for every field kind and step payload parsing as the integer `n`,
`validate_field` succeeds exactly when `MIN_VALUE ≤ n ≤ MAX_VALUE` and
fails with the step out-of-range error otherwise: the step value is
checked against no upper bound other than the field kind's max. -/
theorem cron_c8_step_validation_iff_bounds (p : CronPart) (v : List Char) (n : Int)
    (h : pyInt v = some n) :
    validate_field p .wild_card_with_step_value (some v) =
      if MIN_VALUE p ≤ n ∧ n ≤ MAX_VALUE p then .ok () else .error .stepOutOfRange := by
  simp [validate_field, h]

/-- C8 witness: the minute step payload `"15"` parses as 15 and
validates. -/
theorem cron_c8_witness :
    validate_field .minute .wild_card_with_step_value (some (String.toList "15")) =
      if MIN_VALUE .minute ≤ (15 : Int) ∧ (15 : Int) ≤ MAX_VALUE .minute then .ok ()
      else .error .stepOutOfRange :=
  cron_c8_step_validation_iff_bounds .minute (String.toList "15") 15 (by decide)

/-- C9: `process_cron_expression` fails with `wrongFieldCount` exactly when
splitting the expression on whitespace does not yield five tokens; with
five tokens that error never arises and the fields are processed. -/
theorem cron_c9_wrong_field_count_iff (expression : List Char) :
    process_cron_expression expression = .error .wrongFieldCount ↔
      (pySplitWs expression).length ≠ 5 := by
  constructor
  · intro h hlen
    rw [process_cron_expression] at h
    simp only [hlen, if_true] at h
    split at h
    · cases h
      exact processFields_ne_wfc _ (by assumption)
    · cases h
  · intro h
    rw [process_cron_expression]
    simp only [if_neg h]

/-- C10: a field text beginning with `*` but not `*/` — whatever follows
the star — is classified `all_items`, skips validation, and expands to the
full closed interval `[MIN_VALUE, MAX_VALUE]`; every character after the
leading `*` is silently ignored. -/
theorem cron_c10_star_junk_all_items (part : CronPart) (rest : List Char)
    (hr : rest.head? ≠ some '/') :
    detect_operation ('*' :: rest) = .ok .all_items ∧
    processField part ('*' :: rest) =
      .ok (renderLine part (intervalList (MIN_VALUE part) (MAX_VALUE part))) := by
  have hsw : pyStartsWith ['/'] rest = false := by
    cases rest with
    | nil => rfl
    | cons c cs =>
      have hne : c ≠ '/' := fun hc => hr (by simp [hc])
      simp [pyStartsWith, Ne.symm hne]
  have hdet : detect_operation ('*' :: rest) = .ok .all_items := by
    simp [detect_operation, pyStartsWith, hsw]
  have hgen : generate_values part .all_items none =
      .ok (intervalList (MIN_VALUE part) (MAX_VALUE part)) := by
    simp only [generate_values, pyRange_step_one]
  refine ⟨hdet, ?_⟩
  simp only [processField, hdet, hgen]

/-- C10 witness: the field text `"*5"` for the hour position is classified
`all_items` and expands to the full hour interval, the trailing `5`
ignored. -/
theorem cron_c10_witness :
    detect_operation ('*' :: ['5']) = .ok .all_items ∧
    processField .hour ('*' :: ['5']) =
      .ok (renderLine .hour (intervalList (MIN_VALUE .hour) (MAX_VALUE .hour))) :=
  cron_c10_star_junk_all_items .hour ['5'] (by decide)

end Cron
